import Mathlib

/-
Verification of the SambaManager configuration-store mutator.

The Go sources under services/ are shallowly embedded here: strings are
`List Char`, Go's bufio line scanner, strings helpers and filepath
cleaning are modelled as executable Lean functions, and the mutating
operations of services/samba.go and services/config.go are translated
function by function.
-/

set_option maxRecDepth 20000

/-- Decidable equality for `Except`, used to evaluate operation results. -/
instance {ε α : Type} [DecidableEq ε] [DecidableEq α] :
    DecidableEq (Except ε α) := fun a b =>
  match a, b with
  | .error x, .error y =>
    if h : x = y then .isTrue (by rw [h])
    else .isFalse (by intro hc; cases hc; exact h rfl)
  | .error _, .ok _ => .isFalse (by intro hc; cases hc)
  | .ok _, .error _ => .isFalse (by intro hc; cases hc)
  | .ok x, .ok y =>
    if h : x = y then .isTrue (by rw [h])
    else .isFalse (by intro hc; cases hc; exact h rfl)

namespace SambaMgr

/-- Go strings are modelled as lists of characters. -/
abbrev Str := List Char

/-- Convert a Lean string literal to the character-list model. -/
def strOf (s : String) : Str := s.data

/-- Go unicode.IsSpace restricted to the ASCII whitespace characters
(the only ones that occur in the modelled inputs). -/
def isSpaceChar (c : Char) : Bool :=
  c = ' ' || c = '\t' || c = '\n' || c = '\r' || c = '\x0b' || c = '\x0c'

/-- Go strings.TrimSpace. -/
def trimSpace (s : Str) : Str :=
  ((s.dropWhile isSpaceChar).reverse.dropWhile isSpaceChar).reverse

/-- Go strings.HasPrefix: does `s` start with `p`? -/
def hasPre : Str → Str → Bool
  | [], _ => true
  | _ :: _, [] => false
  | p :: ps, c :: cs => p = c && hasPre ps cs

/-- Go strings.HasSuffix: does `s` end with `suf`? -/
def hasSuf (suf s : Str) : Bool := hasPre suf.reverse s.reverse

theorem hasPre_iff (p s : Str) : hasPre p s = true ↔ ∃ t, s = p ++ t := by
  induction p generalizing s with
  | nil => simp [hasPre]
  | cons d ds ih =>
    cases s with
    | nil => simp [hasPre]
    | cons c cs =>
      simp only [hasPre, Bool.and_eq_true, decide_eq_true_eq, ih, List.cons_append,
        List.cons.injEq]
      constructor
      · rintro ⟨rfl, t, rfl⟩; exact ⟨t, rfl, rfl⟩
      · rintro ⟨t, rfl, rfl⟩; exact ⟨rfl, t, rfl⟩

theorem hasSuf_iff (suf s : Str) : hasSuf suf s = true ↔ ∃ t, s = t ++ suf := by
  unfold hasSuf
  rw [hasPre_iff]
  constructor
  · rintro ⟨t, ht⟩
    refine ⟨t.reverse, ?_⟩
    have := congrArg List.reverse ht
    simpa using this
  · rintro ⟨t, rfl⟩
    exact ⟨t.reverse, by simp⟩

/-- Go strings.TrimPrefix. -/
def stripPre (pre s : Str) : Str :=
  if hasPre pre s then s.drop pre.length else s

/-- Go strings.Contains (substring containment). -/
def containsSub (s pat : Str) : Bool :=
  (List.range (s.length + 1)).any fun i => hasPre pat (s.drop i)

/-- Characters trimmed by strings.Trim(s, "[]"). -/
def isBracket (c : Char) : Bool := c = '[' || c = ']'

/-- Go strings.Trim(s, "[]"): remove leading and trailing bracket characters. -/
def trimBrackets (s : Str) : Str :=
  ((s.dropWhile isBracket).reverse.dropWhile isBracket).reverse

/-- Split a character list at every occurrence of `sep`
(Go strings.Split semantics: `n` separators yield `n+1` parts). -/
def splitOnChar (sep : Char) : Str → List Str
  | [] => [[]]
  | c :: cs =>
    if c = sep then [] :: splitOnChar sep cs
    else
      match splitOnChar sep cs with
      | [] => [[c]]
      | l :: ls => (c :: l) :: ls

/-- Join character lists with the separator `sep` (inverse of `splitOnChar`). -/
def joinChar (sep : Char) : List Str → Str
  | [] => []
  | [l] => l
  | l :: ls => l ++ sep :: joinChar sep ls

theorem splitOnChar_ne_nil (sep : Char) (s : Str) : splitOnChar sep s ≠ [] := by
  cases s with
  | nil => simp [splitOnChar]
  | cons c cs =>
    simp only [splitOnChar]
    split
    · simp
    · split <;> simp

theorem splitOnChar_cons_sep (sep : Char) (cs : Str) :
    splitOnChar sep (sep :: cs) = [] :: splitOnChar sep cs := by
  simp [splitOnChar]

theorem splitOnChar_cons_of_ne (sep c : Char) (cs : Str) (h : ¬ c = sep)
    (l : Str) (ls : List Str) (hsp : splitOnChar sep cs = l :: ls) :
    splitOnChar sep (c :: cs) = (c :: l) :: ls := by
  unfold splitOnChar
  rw [if_neg h, hsp]

theorem joinChar_cons_cons (sep : Char) (l₁ l₂ : Str) (ls : List Str) :
    joinChar sep (l₁ :: l₂ :: ls) = l₁ ++ sep :: joinChar sep (l₂ :: ls) := rfl

theorem joinChar_cons_ne (sep : Char) (l : Str) (ls : List Str) (h : ls ≠ []) :
    joinChar sep (l :: ls) = l ++ sep :: joinChar sep ls := by
  cases ls with
  | nil => exact absurd rfl h
  | cons l₂ ls₂ => rfl

/-- Joining the split parts reproduces the original character list. -/
theorem joinChar_splitOnChar (sep : Char) (s : Str) :
    joinChar sep (splitOnChar sep s) = s := by
  induction s with
  | nil => rfl
  | cons c cs ih =>
    by_cases h : c = sep
    · rw [h, splitOnChar_cons_sep,
        joinChar_cons_ne sep [] _ (splitOnChar_ne_nil sep cs), ih]
      rfl
    · cases hsp : splitOnChar sep cs with
      | nil => exact absurd hsp (splitOnChar_ne_nil sep cs)
      | cons l ls =>
        rw [splitOnChar_cons_of_ne sep c cs h l ls hsp]
        rw [hsp] at ih
        cases ls with
        | nil =>
          simp only [joinChar] at ih ⊢
          rw [ih]
        | cons l₂ ls₂ =>
          rw [joinChar_cons_cons] at ih ⊢
          rw [← ih]
          rfl

/-- Appending a trailing separator appends one empty part. -/
theorem splitOnChar_append_sep (sep : Char) (s : Str) :
    splitOnChar sep (s ++ [sep]) = splitOnChar sep s ++ [[]] := by
  induction s with
  | nil =>
    rw [List.nil_append, splitOnChar_cons_sep]
    rfl
  | cons c cs ih =>
    by_cases h : c = sep
    · rw [h, List.cons_append, splitOnChar_cons_sep, splitOnChar_cons_sep, ih,
        List.cons_append]
    · cases hsp : splitOnChar sep cs with
      | nil => exact absurd hsp (splitOnChar_ne_nil sep cs)
      | cons l ls =>
        have h2 : splitOnChar sep (cs ++ [sep]) = l :: (ls ++ [[]]) := by
          rw [ih, hsp]
          rfl
        rw [List.cons_append, splitOnChar_cons_of_ne sep c _ h l (ls ++ [[]]) h2,
          splitOnChar_cons_of_ne sep c cs h l ls hsp]
        rfl

/-- Every character of every part comes from the original list. -/
theorem mem_of_mem_splitOnChar (sep : Char) (s : Str) (l : Str) (c : Char)
    (hl : l ∈ splitOnChar sep s) (hc : c ∈ l) : c ∈ s := by
  induction s generalizing l with
  | nil =>
    simp [splitOnChar] at hl
    subst hl
    simp at hc
  | cons d ds ih =>
    by_cases h : d = sep
    · rw [h, splitOnChar_cons_sep] at hl
      rw [h]
      rcases List.mem_cons.mp hl with h1 | h1
      · subst h1
        simp at hc
      · exact List.mem_cons_of_mem _ (ih l h1 hc)
    · cases hsp : splitOnChar sep ds with
      | nil => exact absurd hsp (splitOnChar_ne_nil sep ds)
      | cons t ts =>
        rw [splitOnChar_cons_of_ne sep d ds h t ts hsp] at hl
        rcases List.mem_cons.mp hl with h1 | h1
        · subst h1
          rcases List.mem_cons.mp hc with h2 | h2
          · simp [h2]
          · exact List.mem_cons_of_mem _ (ih t (by simp [hsp]) h2)
        · exact List.mem_cons_of_mem _ (ih l (by simp [hsp, h1]) hc)

/-- bufio.ScanLines drops one trailing carriage return from each line. -/
def dropCR (l : Str) : Str :=
  if hasSuf ['\r'] l then l.dropLast else l

/-- The sequence of lines a Go bufio.Scanner (ScanLines split) yields on
`s`: split on newline, drop the final empty token produced by a trailing
newline, drop a trailing carriage return from each line; empty input
yields no lines. -/
def goLines (s : Str) : List Str :=
  if s = [] then []
  else
    (if hasSuf ['\n'] s then (splitOnChar '\n' s).dropLast
     else splitOnChar '\n' s).map dropCR

/-- Join lines with newline characters (Go strings.Join(lines, "\n")). -/
def joinNL (ls : List Str) : Str := joinChar '\n' ls

theorem dropCR_eq_self (l : Str) (h : ('\r' : Char) ∉ l) : dropCR l = l := by
  unfold dropCR
  rw [if_neg]
  intro hsuf
  rcases (hasSuf_iff _ _).mp hsuf with ⟨t, ht⟩
  exact h (by rw [ht]; simp)

/-- On carriage-return-free text, joining the scanner's lines with
newlines reproduces the text up to one trailing newline. -/
theorem joinNL_goLines (s : Str) (hr : ('\r' : Char) ∉ s) :
    joinNL (goLines s) = if hasSuf ['\n'] s then s.dropLast else s := by
  have hmap : ∀ t : List Str, (∀ l ∈ t, ∀ c ∈ l, c ∈ s) → t.map dropCR = t := by
    intro t
    induction t with
    | nil => intro _; rfl
    | cons l ls ih =>
      intro ht
      simp only [List.map_cons]
      rw [dropCR_eq_self l (fun hc => hr (ht l (by simp) '\r' hc)),
        ih (fun l' hl' c hc => ht l' (by simp [hl']) c hc)]
  by_cases hnil : s = []
  · subst hnil
    simp [goLines, joinNL, joinChar, hasSuf, hasPre]
  · by_cases hsuf : hasSuf ['\n'] s
    · rcases (hasSuf_iff _ _).mp hsuf with ⟨t, rfl⟩
      rw [if_pos hsuf]
      unfold goLines
      rw [if_neg hnil, if_pos hsuf, splitOnChar_append_sep, List.dropLast_concat]
      rw [hmap _ (fun l hl c hc =>
        List.mem_append_left _ (mem_of_mem_splitOnChar '\n' t l c hl hc))]
      rw [joinNL, joinChar_splitOnChar]
      simp
    · rw [if_neg hsuf]
      unfold goLines
      rw [if_neg hnil, if_neg hsuf]
      rw [hmap _ (fun l hl c hc => mem_of_mem_splitOnChar '\n' s l c hl hc)]
      rw [joinNL, joinChar_splitOnChar]

/-! ## Validation patterns of services/samba.go -/

/-- Character class `[a-zA-Z0-9_-]`. -/
def isUserChar (c : Char) : Bool :=
  (('a' ≤ c) && (c ≤ 'z')) || (('A' ≤ c) && (c ≤ 'Z')) ||
  (('0' ≤ c) && (c ≤ '9')) || c = '_' || c = '-'

/-- The username regex `^[a-zA-Z0-9_-]{1,32}$`. -/
def isValidUsername (s : Str) : Bool :=
  decide (1 ≤ s.length) && decide (s.length ≤ 32) && s.all isUserChar

/-- Character class `[a-zA-Z0-9]`. -/
def isAlphaNum (c : Char) : Bool :=
  (('a' ≤ c) && (c ≤ 'z')) || (('A' ≤ c) && (c ≤ 'Z')) || (('0' ≤ c) && (c ≤ '9'))

/-- `\p{Han}` modelled by the principal CJK unified-ideograph blocks. -/
def isHanChar (c : Char) : Bool :=
  (0x4E00 ≤ c.toNat && c.toNat ≤ 0x9FFF) || (0x3400 ≤ c.toNat && c.toNat ≤ 0x4DBF) ||
  (0x20000 ≤ c.toNat && c.toNat ≤ 0x2A6DF) || (0xF900 ≤ c.toNat && c.toNat ≤ 0xFAFF)

/-- services/samba.go isValidShareName: empty is allowed (timestamp fallback),
otherwise the regex `^[a-zA-Z0-9\p{Han}]+$` must match. -/
def isValidShareName (s : Str) : Bool :=
  if s = [] then true
  else s.all fun c => isAlphaNum c || isHanChar c

/-- Does `^([a-zA-Z0-9_-]+)-share-(.+)$` match `s` with the first capture
group equal to `s.take k`? (`.` does not match a newline in Go regexp.) -/
def shareSplitOk (s : Str) (k : Nat) : Bool :=
  decide (1 ≤ k) && (s.take k).all isUserChar &&
  hasPre (strOf "-share-") (s.drop k) && decide (k + 7 < s.length) &&
  (s.drop (k + 7)).all fun c => !(c = '\n')

/-- Whether the share-id pattern `^([a-zA-Z0-9_-]+)-share-(.+)$` matches. -/
def sharePatternMatches (s : Str) : Bool :=
  (List.range (s.length + 1)).any (shareSplitOk s)

/-- The owner capture of the share-id pattern: the first group is greedy,
so the longest admissible split wins; empty if the pattern does not match. -/
def shareOwnerOf (s : Str) : Str :=
  match (List.range (s.length + 1)).reverse.find? (shareSplitOk s) with
  | some k => s.take k
  | none => []

/-! ## Go path handling: filepath.Clean, filepath.Join, cleanSubPath -/

/-- The segment-stack algorithm of Go path.Clean; `acc` holds the output
segments in reverse order. Empty and `.` segments are dropped; `..` pops a
non-`..` segment, is dropped at the root, and is kept at the start of a
relative path. -/
def cleanSegs (rooted : Bool) : List Str → List Str → List Str
  | acc, [] => acc.reverse
  | acc, seg :: rest =>
    if seg = [] ∨ seg = ['.'] then cleanSegs rooted acc rest
    else if seg = ['.', '.'] then
      match acc with
      | [] =>
        if rooted then cleanSegs rooted [] rest
        else cleanSegs rooted [seg] rest
      | top :: accTail =>
        if top = ['.', '.'] then cleanSegs rooted (seg :: acc) rest
        else cleanSegs rooted accTail rest
    else cleanSegs rooted (seg :: acc) rest

/-- Go path/filepath.Clean for Unix paths. -/
def goClean (p : Str) : Str :=
  if p = [] then ['.']
  else
    let rooted := hasPre ['/'] p
    let body := joinChar '/' (cleanSegs rooted [] (splitOnChar '/' p))
    if rooted then '/' :: body
    else if body = [] then ['.']
    else body

/-- Go filepath.Join on two elements: empty elements are skipped and the
result is cleaned. -/
def goJoin (a b : Str) : Str :=
  if a = [] ∧ b = [] then []
  else if a = [] then goClean b
  else if b = [] then goClean a
  else goClean (a ++ '/' :: b)

/-- services/samba.go cleanSubPath: clean the path, strip one leading `/`
then one leading `\`, reject when the result contains `..`, and map an
empty or `.` result to the empty path. -/
def cleanSubPath (subPath : Str) : Except Str Str :=
  if subPath = [] then .ok []
  else if containsSub (stripPre ['\\'] (stripPre ['/'] (goClean subPath)))
         ['.', '.'] then
    .error (strOf "invalid subdirectory path: path traversal not allowed")
  else if stripPre ['\\'] (stripPre ['/'] (goClean subPath)) = [] ∨
          stripPre ['\\'] (stripPre ['/'] (goClean subPath)) = ['.'] then
    .ok []
  else .ok (stripPre ['\\'] (stripPre ['/'] (goClean subPath)))

/-! ## Share records (types/share.go) -/

/-- types.Share: the request payload for creating/updating a share.
Defaults are the Go zero values. -/
structure Share where
  name : Str := []
  owner : Str := []
  sharedWith : List Str := []
  readOnly : Bool := false
  comment : Str := []
  subPath : Str := []
deriving Repr, DecidableEq, Inhabited

/-- types.ShareResponse: a share record as parsed from the config file. -/
structure ShareResponse where
  id : Str := []
  owner : Str := []
  path : Str := []
  sharedWith : List Str := []
  readOnly : Bool := false
  comment : Str := []
  subPath : Str := []
deriving Repr, DecidableEq, Inhabited

/-! ## Section rewriting (services/samba.go modifySharesInContent) -/

/-- The share path generated by buildShareConfigLines: the owner's home
directory, extended by the cleaned subpath when one is present (a cleaning
error is discarded there, leaving the home directory). -/
def sharePathOf (homeDir : Str) (share : Share) : Str :=
  if share.subPath ≠ [] ∧
     (match cleanSubPath share.subPath with
      | .ok c => c
      | .error _ => []) ≠ [] then
    goJoin (goJoin homeDir share.owner)
      (match cleanSubPath share.subPath with
       | .ok c => c
       | .error _ => [])
  else goJoin homeDir share.owner

/-- The lines of a generated share section after the header line. -/
def buildShareTailLines (homeDir : Str) (share : Share) : List Str :=
  ([strOf "   path = " ++ sharePathOf homeDir share,
    strOf "   browseable = yes",
    strOf "   valid users = " ++ joinChar ' ' share.sharedWith,
    strOf "   force user = root",
    strOf "   force group = root"]
   ++ (if share.readOnly then [strOf "   read only = yes"]
       else [strOf "   read only = no", strOf "   writable = yes"])
   ++ (if share.comment ≠ [] then [strOf "   comment = " ++ share.comment]
       else []))

/-- services/samba.go buildShareConfigLines: the generated section for a
share — the header line followed by the attribute lines. -/
def buildShareConfigLines (homeDir : Str) (shareID : Str) (share : Share) :
    List Str :=
  (strOf "[" ++ shareID ++ strOf "]") :: buildShareTailLines homeDir share

/-- services/samba.go buildShareConfig: the appended share text, with a
leading and a trailing newline. -/
def buildShareConfig (homeDir : Str) (shareID : Str) (share : Share) : Str :=
  '\n' :: joinNL (buildShareConfigLines homeDir shareID share) ++ ['\n']

/-- Loop state of modifySharesInContent: emitted lines, whether the current
section is a delete/update target, the current section id, and the lines
accumulated for the current section. -/
structure ModifyState where
  out : List Str
  inTarget : Bool
  curID : Str
  curLines : List Str
deriving Repr, DecidableEq

/-- Is a trimmed line a section header (starts with `[`, ends with `]`)? -/
def isHeaderLine (trimmedLine : Str) : Bool :=
  hasPre ['['] trimmedLine && hasSuf [']'] trimmedLine

/-- Flush the accumulated section: an update target is replaced by freshly
generated lines, a delete target is dropped, anything else is kept. -/
def flushCur (homeDir : Str) (del : Str → Bool) (upd : Str → Option Share)
    (st : ModifyState) : List Str :=
  if st.inTarget ∧ st.curID ≠ [] ∧ (upd st.curID).isSome then
    st.out ++ buildShareConfigLines homeDir st.curID ((upd st.curID).getD default)
  else if ¬ st.inTarget ∨ ¬ del st.curID then
    st.out ++ st.curLines
  else
    st.out

/-- One loop iteration of modifySharesInContent. -/
def modifyStep (homeDir : Str) (del : Str → Bool) (upd : Str → Option Share)
    (st : ModifyState) (line : Str) : ModifyState :=
  let trimmedLine := trimSpace line
  if isHeaderLine trimmedLine then
    let shareName := trimBrackets trimmedLine
    { out := flushCur homeDir del upd st,
      inTarget := del shareName || (upd shareName).isSome,
      curID := shareName,
      curLines := [line] }
  else if st.inTarget then st
  else { st with curLines := st.curLines ++ [line] }

/-- The initial loop state. -/
def initModifyState : ModifyState := ⟨[], false, [], []⟩

/-- services/samba.go modifySharesInContent. The Go maps `sharesToDelete`
and `sharesToUpdate` are modelled as a membership test and a lookup. -/
def modifySharesInContent (homeDir : Str) (content : Str)
    (del : Str → Bool) (upd : Str → Option Share) : Str :=
  joinNL (flushCur homeDir del upd
    ((goLines content).foldl (modifyStep homeDir del upd) initModifyState))

/-- The empty delete set. -/
def noDel : Str → Bool := fun _ => false

/-- The empty update map. -/
def noUpd : Str → Option Share := fun _ => none

theorem modifyStep_header (homeDir : Str) (del : Str → Bool)
    (upd : Str → Option Share) (st : ModifyState) (line : Str)
    (hh : isHeaderLine (trimSpace line) = true) :
    modifyStep homeDir del upd st line =
      { out := flushCur homeDir del upd st,
        inTarget := del (trimBrackets (trimSpace line)) ||
          (upd (trimBrackets (trimSpace line))).isSome,
        curID := trimBrackets (trimSpace line),
        curLines := [line] } := by
  unfold modifyStep
  rw [if_pos hh]

theorem modifyStep_plain (homeDir : Str) (del : Str → Bool)
    (upd : Str → Option Share) (st : ModifyState) (line : Str)
    (hh : ¬ isHeaderLine (trimSpace line) = true) (h : st.inTarget = false) :
    modifyStep homeDir del upd st line =
      { st with curLines := st.curLines ++ [line] } := by
  unfold modifyStep
  rw [if_neg hh, h]
  simp

theorem flushCur_notTarget (homeDir : Str) (del : Str → Bool)
    (upd : Str → Option Share) (st : ModifyState) (h : st.inTarget = false) :
    flushCur homeDir del upd st = st.out ++ st.curLines := by
  unfold flushCur
  rw [if_neg (by simp [h]), if_pos (by simp [h])]

theorem flushCur_foldl_noMaps (homeDir : Str) (ls : List Str)
    (st : ModifyState) (h : st.inTarget = false) :
    flushCur homeDir noDel noUpd
      (ls.foldl (modifyStep homeDir noDel noUpd) st) =
    st.out ++ st.curLines ++ ls := by
  induction ls generalizing st with
  | nil =>
    rw [List.foldl_nil, flushCur_notTarget homeDir noDel noUpd st h]
    simp
  | cons l ls ih =>
    rw [List.foldl_cons]
    by_cases hh : isHeaderLine (trimSpace l) = true
    · rw [modifyStep_header homeDir noDel noUpd st l hh]
      rw [ih _ (by simp [noDel, noUpd])]
      rw [flushCur_notTarget homeDir noDel noUpd st h]
      simp
    · rw [modifyStep_plain homeDir noDel noUpd st l hh h]
      rw [ih { st with curLines := st.curLines ++ [l] } h]
      simp

/-- With empty delete and update sets, modifySharesInContent joins the
scanner's lines back with newlines. -/
theorem modifyShares_noMaps (homeDir content : Str) :
    modifySharesInContent homeDir content noDel noUpd =
      joinNL (goLines content) := by
  unfold modifySharesInContent
  rw [flushCur_foldl_noMaps homeDir _ initModifyState rfl]
  rfl

/-! ## Parsing shares (services/samba.go parseSharesFromContent) -/

/-- Go strings.SplitN(s, "=", 2): the text before and after the first `=`,
or `none` when the line contains no `=`. -/
def splitEq1 : Str → Option (Str × Str)
  | [] => none
  | c :: cs =>
    if c = '=' then some ([], cs)
    else (splitEq1 cs).map fun p => (c :: p.1, p.2)

/-- Accumulator for Go strings.Fields: `cur` is the current field reversed. -/
def goFieldsAux : Str → Str → List Str
  | cur, [] => if cur = [] then [] else [cur.reverse]
  | cur, c :: cs =>
    if isSpaceChar c then
      if cur = [] then goFieldsAux [] cs
      else cur.reverse :: goFieldsAux [] cs
    else goFieldsAux (c :: cur) cs

/-- Go strings.Fields: split around runs of whitespace. -/
def goFields (s : Str) : List Str := goFieldsAux [] s

/-- One key/value assignment inside a share section of
parseSharesFromContent. -/
def parseShareProp (homeDir : Str) (sh : ShareResponse) (key value : Str) :
    ShareResponse :=
  if key = strOf "path" then
    let sh := { sh with path := value }
    let ownerHome := goJoin homeDir sh.owner
    if hasPre ownerHome value then
      let sub := stripPre ['\\'] (stripPre ['/'] (stripPre ownerHome value))
      if sub ≠ [] then { sh with subPath := sub } else sh
    else sh
  else if key = strOf "read only" then { sh with readOnly := value == strOf "yes" }
  else if key = strOf "comment" then { sh with comment := value }
  else if key = strOf "valid users" then { sh with sharedWith := goFields value }
  else sh

/-- One loop iteration of parseSharesFromContent: the state is the list of
completed shares and the share section currently being read. -/
def parseStep (homeDir : Str) (st : List ShareResponse × Option ShareResponse)
    (rawLine : Str) : List ShareResponse × Option ShareResponse :=
  let line := trimSpace rawLine
  if line = [] || hasPre ['#'] line || hasPre [';'] line then st
  else if isHeaderLine line then
    let saved :=
      match st.2 with
      | some cur => if sharePatternMatches cur.id then st.1 ++ [cur] else st.1
      | none => st.1
    let shareName := trimBrackets line
    (saved, some { id := shareName, owner := shareOwnerOf shareName, sharedWith := [] })
  else
    match st.2, splitEq1 line with
    | some cur, some (k, v) =>
      (st.1, some (parseShareProp homeDir cur (trimSpace k) (trimSpace v)))
    | _, _ => st

/-- services/samba.go parseSharesFromContent. -/
def parseSharesFromContent (homeDir content : Str) : List ShareResponse :=
  let st := (goLines content).foldl (parseStep homeDir) ([], none)
  match st.2 with
  | some cur => if sharePatternMatches cur.id then st.1 ++ [cur] else st.1
  | none => st.1

/-! ## Deprovisioning plan (services/samba.go DeleteUser) -/

/-- services/samba.go removeFromSlice: drop every occurrence, keep order. -/
def removeFromSlice (slice : List Str) (item : Str) : List Str :=
  slice.filter fun s => !(s == item)

/-- The share ids marked for deletion and the update payloads collected by
DeleteUser before any mutation. -/
structure DeletePlan where
  toDelete : List Str
  toUpdate : List (Str × Share)
deriving Repr, DecidableEq

/-- One share's contribution to the DeleteUser plan. The update payload is
the Go literal `&types.Share{Owner, SharedWith, ReadOnly, Comment}` — its
Name and SubPath fields are the zero value. -/
def deleteUserPlanStep (username : Str) (plan : DeletePlan)
    (share : ShareResponse) : DeletePlan :=
  if share.owner = username then
    { plan with toDelete := plan.toDelete ++ [share.id] }
  else if share.sharedWith.contains username then
    let newSharedWith := removeFromSlice share.sharedWith username
    if newSharedWith = [] then
      { plan with toDelete := plan.toDelete ++ [share.id] }
    else
      { plan with toUpdate := plan.toUpdate ++
          [(share.id, { owner := share.owner, sharedWith := newSharedWith,
                        readOnly := share.readOnly, comment := share.comment })] }
  else plan

/-- The full DeleteUser plan over one parsed snapshot. -/
def deleteUserPlan (username : Str) (shares : List ShareResponse) : DeletePlan :=
  shares.foldl (deleteUserPlanStep username) ⟨[], []⟩

/-- Membership test of the Go map `sharesToDelete`. -/
def planDel (plan : DeletePlan) : Str → Bool :=
  fun id => plan.toDelete.contains id

/-- Lookup of the Go map `sharesToUpdate` (a later assignment wins). -/
def planUpd (plan : DeletePlan) : Str → Option Share :=
  fun id => (plan.toUpdate.reverse.find? fun p => p.1 == id).map Prod.snd

/-- The config content written by DeleteUser: the plan is computed against
one snapshot and applied as a single rewrite; with an empty plan the file
is not rewritten. -/
def deleteUserNewContent (homeDir content username : Str) : Str :=
  let plan := deleteUserPlan username (parseSharesFromContent homeDir content)
  if plan.toDelete ≠ [] ∨ plan.toUpdate ≠ [] then
    modifySharesInContent homeDir content (planDel plan) (planUpd plan)
  else content

/-! ## Operations with their observable side effects -/

/-- The externally observable side effects of the mutating operations. -/
inductive Effect where
  | readConfigFile
  | writeConfigFile (content : Str)
  | statHomeDir (path : Str)
  | mkdirAll (path : Str)
  | runCmd (tool : Str) (args : List Str)
  | removeAll (path : Str)
  | reloadSamba
deriving Repr, DecidableEq

/-- services/samba.go DeleteShare, on the happy external path. -/
inductive DeleteShareResult where
  | notFound
  | ok (newContent : Str)
deriving Repr, DecidableEq

/-- services/samba.go DeleteShare: rewrite with a one-element delete set and
report not-found only when the rewrite returned the content unchanged. -/
def deleteShare (homeDir content shareName : Str) : DeleteShareResult :=
  let newContent :=
    modifySharesInContent homeDir content (fun id => id == shareName) noUpd
  if newContent = content then .notFound else .ok newContent

/-- The subdirectory effects shared by CreateShare and UpdateShare: create
the validated subdirectory and set its ownership and mode. -/
def subDirEffects (ownerHome : Str) : Option Str → List Effect
  | some c =>
    if c ≠ [] then
      [Effect.mkdirAll (goJoin ownerHome c),
       Effect.runCmd (strOf "chown") [strOf "-R", strOf "root:root", goJoin ownerHome c],
       Effect.runCmd (strOf "chmod") [strOf "-R", strOf "770", goJoin ownerHome c]]
    else []
  | none => []

/-- services/samba.go CreateShare, with external commands assumed to
succeed. `ownerHomeExists` is the os.Stat outcome, `timestamp` the clock's
`YYYYMMDDHHMMSS` rendering; the effect trace records file and process
accesses in order, and the result is the share id. -/
def createShare (homeDir : Str) (ownerHomeExists : Bool) (content : Str)
    (timestamp : Str) (share : Share) : List Effect × Except Str Str :=
  if ¬ isValidUsername share.owner then
    ([], .error (strOf "invalid owner username"))
  else if ¬ isValidShareName share.name then
    ([], .error (strOf "invalid share name: must contain only alphanumeric characters or Chinese characters, no symbols"))
  else if share.sharedWith = [] then
    ([], .error (strOf "must share with at least one user"))
  else
    match share.sharedWith.find? (fun u => !(isValidUsername u)) with
    | some u => ([], .error (strOf "invalid username in shared_with: " ++ u))
    | none =>
      let ownerHome := goJoin homeDir share.owner
      if ¬ ownerHomeExists then
        ([.statHomeDir ownerHome], .error (strOf "owner's home directory does not exist"))
      else
        match (if share.subPath ≠ [] then (cleanSubPath share.subPath).map some
               else .ok none) with
        | .error e => ([.statHomeDir ownerHome], .error e)
        | .ok copt =>
          let pre := Effect.statHomeDir ownerHome :: subDirEffects ownerHome copt
          let shareNameRes : Except Str Str :=
            if share.name ≠ [] then
              let sid := share.owner ++ strOf "-share-" ++ share.name
              if containsSub content (strOf "[" ++ sid ++ strOf "]") then
                .error (strOf "share name '" ++ share.name ++
                  strOf "' already exists for this user")
              else .ok sid
            else .ok (share.owner ++ strOf "-share-" ++ timestamp)
          match shareNameRes with
          | .error e => (pre ++ [Effect.readConfigFile], .error e)
          | .ok sid =>
            let newContent := content ++ buildShareConfig homeDir sid share
            (pre ++ [Effect.readConfigFile, Effect.writeConfigFile newContent,
              Effect.reloadSamba], .ok sid)

/-- services/samba.go UpdateShare, with external commands assumed to
succeed. The Go function returns only an error; here the rewritten content
is returned on success so that it can be spoken about. Note the source has
no not-found branch. -/
def updateShare (homeDir : Str) (ownerHomeExists : Bool) (content : Str)
    (shareId : Str) (share : Share) : List Effect × Except Str Str :=
  if ¬ sharePatternMatches shareId then
    ([], .error (strOf "invalid share ID format"))
  else if share.sharedWith = [] then
    ([], .error (strOf "must share with at least one user"))
  else
    match share.sharedWith.find? (fun u => !(isValidUsername u)) with
    | some u => ([], .error (strOf "invalid username in shared_with: " ++ u))
    | none =>
      let ownerHome := goJoin homeDir share.owner
      if ¬ ownerHomeExists then
        ([.statHomeDir ownerHome], .error (strOf "owner's home directory does not exist"))
      else
        match (if share.subPath ≠ [] then (cleanSubPath share.subPath).map some
               else .ok none) with
        | .error e => ([.statHomeDir ownerHome], .error e)
        | .ok copt =>
          let newContent := modifySharesInContent homeDir content noDel
            fun sid => if sid == shareId then some share else none
          (Effect.statHomeDir ownerHome :: subDirEffects ownerHome copt ++
            [Effect.readConfigFile, Effect.writeConfigFile newContent,
             Effect.reloadSamba], .ok newContent)

/-- services/samba.go DeleteUser on the happy external path: note the
source validates nothing about `username` before invoking smbpasswd and
userdel on it and joining it into the removed home-directory path. -/
def deleteUser (homeDir content username : Str) (deleteHomeDirFlag : Bool) :
    List Effect × Except Str Unit :=
  let plan := deleteUserPlan username (parseSharesFromContent homeDir content)
  let writeEffects :=
    if plan.toDelete ≠ [] ∨ plan.toUpdate ≠ [] then
      [Effect.writeConfigFile
        (modifySharesInContent homeDir content (planDel plan) (planUpd plan))]
    else []
  (Effect.readConfigFile :: writeEffects ++
    [Effect.runCmd (strOf "smbpasswd") [strOf "-x", username],
     Effect.runCmd (strOf "userdel") [strOf "--extrausers", username]] ++
    (if deleteHomeDirFlag then [Effect.removeAll (goJoin homeDir username)]
     else []) ++
    [Effect.reloadSamba], .ok ())

/-! ## User provisioning (services/samba.go CreateUser) -/

/-- The provisioned resources CreateUser can leave behind. -/
structure SysState where
  homeDirExists : Bool := false
  unixUserExists : Bool := false
  sambaUserExists : Bool := false
  sambaEnabled : Bool := false
deriving Repr, DecidableEq, Inhabited

/-- The success or failure of each external step of CreateUser. -/
structure StepOutcomes where
  mkdirOk : Bool := true
  chownOk : Bool := true
  chmodOk : Bool := true
  useraddOk : Bool := true
  smbPipeOk : Bool := true
  smbStartOk : Bool := true
  smbWriteOk : Bool := true
  smbWaitOk : Bool := true
  smbEnableOk : Bool := true
deriving Repr, DecidableEq, Inhabited

/-- services/samba.go CreateUser as a compensating chain: each failure
branch performs exactly the cleanup the source performs there and returns
that step's error. On the enable failure the source runs only
`userdel --extrausers` — it does not remove the home directory and does
not remove the tdbsam entry. -/
def createUser (username : Str) (o : StepOutcomes) : SysState × Except Str Unit :=
  if ¬ isValidUsername username then
    ({}, .error (strOf "invalid username: must contain only letters, numbers, underscore, and dash"))
  else if ¬ o.mkdirOk then
    ({}, .error (strOf "failed to create home directory"))
  else if ¬ o.chownOk then
    ({ homeDirExists := true }, .error (strOf "failed to set directory ownership"))
  else if ¬ o.chmodOk then
    ({ homeDirExists := true }, .error (strOf "failed to set directory permissions"))
  else if ¬ o.useraddOk then
    ({}, .error (strOf "failed to create unix user"))
  else if ¬ o.smbPipeOk then
    ({}, .error (strOf "failed to create stdin pipe for smbpasswd"))
  else if ¬ o.smbStartOk then
    ({}, .error (strOf "failed to start smbpasswd"))
  else if ¬ o.smbWriteOk then
    ({}, .error (strOf "failed to write samba password"))
  else if ¬ o.smbWaitOk then
    ({}, .error (strOf "failed to create samba user"))
  else if ¬ o.smbEnableOk then
    ({ homeDirExists := true, sambaUserExists := true },
     .error (strOf "failed to enable samba user"))
  else
    ({ homeDirExists := true, unixUserExists := true,
       sambaUserExists := true, sambaEnabled := true }, .ok ())

/-! ## Structured section update (services/config.go) -/

/-- types.SambaGlobalConfig. -/
structure SambaGlobalConfig where
  workgroup : Str := []
  serverString : Str := []
  security : Str := []
  passdbBackend : Str := []
  mapToGuest : Str := []
  accessBasedShareEnum : Str := []
deriving Repr, DecidableEq, Inhabited

/-- types.SambaHomesConfig. -/
structure SambaHomesConfig where
  comment : Str := []
  browseable : Str := []
  writable : Str := []
  validUsers : Str := []
  forceUser : Str := []
  forceGroup : Str := []
  createMask : Str := []
  directoryMask : Str := []
deriving Repr, DecidableEq, Inhabited

/-- types.UpdateSambaConfigRequest: the two optional partial sections. -/
structure UpdateSambaConfigRequest where
  globalCfg : Option SambaGlobalConfig := none
  homesCfg : Option SambaHomesConfig := none
deriving Repr, DecidableEq, Inhabited

/-- Go strings.ToLower (ASCII). -/
def toLowerStr (s : Str) : Str := s.map Char.toLower

/-- The key normalization of services/config.go: remove spaces, lower. -/
def toLowerNoSpace (s : Str) : Str :=
  (s.filter fun c => !(c = ' ')).map Char.toLower

/-- services/config.go getGlobalValue: the requested value for a
normalized key, only when the request carries a non-empty value. -/
def getGlobalValue (cfg : SambaGlobalConfig) (key : Str) : Option Str :=
  if key = strOf "workgroup" then
    if cfg.workgroup ≠ [] then some cfg.workgroup else none
  else if key = strOf "serverstring" then
    if cfg.serverString ≠ [] then some cfg.serverString else none
  else if key = strOf "security" then
    if cfg.security ≠ [] then some cfg.security else none
  else if key = strOf "passdbbackend" then
    if cfg.passdbBackend ≠ [] then some cfg.passdbBackend else none
  else if key = strOf "maptoguest" then
    if cfg.mapToGuest ≠ [] then some cfg.mapToGuest else none
  else if key = strOf "accessbasedshareenum" then
    if cfg.accessBasedShareEnum ≠ [] then some cfg.accessBasedShareEnum else none
  else none

/-- services/config.go getHomesValue, with the key synonyms of the source. -/
def getHomesValue (cfg : SambaHomesConfig) (key : Str) : Option Str :=
  if key = strOf "comment" then
    if cfg.comment ≠ [] then some cfg.comment else none
  else if key = strOf "browseable" ∨ key = strOf "browsable" then
    if cfg.browseable ≠ [] then some cfg.browseable else none
  else if key = strOf "writable" ∨ key = strOf "writeable" then
    if cfg.writable ≠ [] then some cfg.writable else none
  else if key = strOf "validusers" then
    if cfg.validUsers ≠ [] then some cfg.validUsers else none
  else if key = strOf "forceuser" then
    if cfg.forceUser ≠ [] then some cfg.forceUser else none
  else if key = strOf "forcegroup" then
    if cfg.forceGroup ≠ [] then some cfg.forceGroup else none
  else if key = strOf "createmask" ∨ key = strOf "createmode" then
    if cfg.createMask ≠ [] then some cfg.createMask else none
  else if key = strOf "directorymask" ∨ key = strOf "directorymode" then
    if cfg.directoryMask ≠ [] then some cfg.directoryMask else none
  else none

/-- The key/value branch of the UpdateSambaConfig loop body: rewrite the
line in place when the current reserved section's request carries a value
for the normalized key, otherwise emit the line unchanged. -/
def updKeyLine (req : UpdateSambaConfigRequest) (currentSection k line : Str) :
    Str × Str :=
  match (if currentSection = strOf "global" then
           req.globalCfg.bind fun g =>
             getGlobalValue g (toLowerNoSpace (trimSpace k))
         else none) with
  | some v =>
    (strOf "   " ++ trimSpace k ++ strOf " = " ++ v, currentSection)
  | none =>
    match (if currentSection = strOf "homes" then
             req.homesCfg.bind fun h =>
               getHomesValue h (toLowerNoSpace (trimSpace k))
           else none) with
    | some v =>
      (strOf "   " ++ trimSpace k ++ strOf " = " ++ v, currentSection)
    | none => (line, currentSection)

/-- One line of services/config.go UpdateSambaConfig: the emitted line and
the section in force after it. -/
def updLine (req : UpdateSambaConfigRequest) (currentSection : Str)
    (line : Str) : Str × Str :=
  if isHeaderLine (trimSpace line) then
    (line, toLowerStr (trimBrackets (trimSpace line)))
  else if trimSpace line = [] || hasPre ['#'] (trimSpace line) ||
          hasPre [';'] (trimSpace line) then
    (line, currentSection)
  else
    match splitEq1 (trimSpace line) with
    | none => (line, currentSection)
    | some (k, _) => updKeyLine req currentSection k line

/-- The line loop of UpdateSambaConfig, threading the current section. -/
def updateConfigLines (req : UpdateSambaConfigRequest) :
    Str → List Str → List Str
  | _, [] => []
  | sec, l :: ls =>
    (updLine req sec l).1 :: updateConfigLines req (updLine req sec l).2 ls

/-- services/config.go UpdateSambaConfig: the rewritten file content
(lines joined with newlines plus one trailing newline). -/
def updateSambaConfig (req : UpdateSambaConfigRequest) (content : Str) : Str :=
  joinNL (updateConfigLines req [] (goLines content)) ++ ['\n']

/-- The section in force after reading one line (header lines switch, all
other lines keep the section). -/
def nextSection (sec line : Str) : Str :=
  if isHeaderLine (trimSpace line) then toLowerStr (trimBrackets (trimSpace line))
  else sec

/-- The section in force at line `i`, starting from section `sec`. -/
def sectionAtFrom (sec : Str) (ls : List Str) (i : Nat) : Str :=
  (ls.take i).foldl nextSection sec

/-- The shape of a rewritten key line: the input is a key/value line whose
normalized key carries a non-empty value in the request's section payload,
and the output is that key with the requested value. -/
def rewrittenForm (req : UpdateSambaConfigRequest) (sec lin lout : Str) :
    Prop :=
  ∃ k rest v, splitEq1 (trimSpace lin) = some (k, rest) ∧ v ≠ [] ∧
    ((sec = strOf "global" ∧ ∃ g, req.globalCfg = some g ∧
        getGlobalValue g (toLowerNoSpace (trimSpace k)) = some v) ∨
     (sec = strOf "homes" ∧ ∃ hm, req.homesCfg = some hm ∧
        getHomesValue hm (toLowerNoSpace (trimSpace k)) = some v)) ∧
    lout = strOf "   " ++ trimSpace k ++ strOf " = " ++ v

/-! ## Raw replace with validation (services/config.go
UpdateSambaConfigFile) -/

/-- The on-disk files UpdateSambaConfigFile touches. -/
structure FileState where
  configFile : Str
  backupFile : Option Str := none
deriving Repr, DecidableEq, Inhabited

/-- services/config.go UpdateSambaConfigFile with all writes succeeding:
back up in memory and on disk, write the new content, validate what is now
on disk, and on validation failure write the original back and drop the
backup. `validateOk` is the testparm verdict as a function of the on-disk
content. -/
def updateSambaConfigFile (validateOk : Str → Bool) (fs : FileState)
    (newContent : Str) : FileState × Except Str Unit :=
  let original := fs.configFile
  let afterWrite : FileState := { configFile := newContent,
                                  backupFile := some original }
  if ¬ validateOk afterWrite.configFile then
    ({ configFile := original, backupFile := none },
     .error (strOf "configuration validation failed, reverted to original"))
  else
    ({ afterWrite with backupFile := none }, .ok ())

/-! ## Spec-side definitions (for refinement comparison only) -/

/-- Modelled from the spec: "that id is not already present as a section
header" — some line of the document is, after trimming, exactly `[id]`.
This is the spec's reading; the source checks raw substring containment. -/
def sectionHeaderExists (content id : Str) : Bool :=
  (goLines content).any fun line =>
    trimSpace line == strOf "[" ++ id ++ strOf "]"

/-- Modelled from the spec: "contains a `..` segment" — some
slash-separated component of the path equals `..`. The source checks for
`..` as a raw substring instead. -/
def hasDotDotSegment (p : Str) : Bool :=
  (splitOnChar '/' p).contains (strOf "..")

/-! ## Concrete documents used by the claim theorems -/

/-- The deprovisioning example of the spec, with `bob-share-1` placed in a
subdirectory of bob's home. -/
def exDeleteContent : Str := strOf
  "[global]\n   workgroup = WORKGROUP\n\n[alice-share-1]\n   path = /home/alice\n   valid users = bob\n\n[bob-share-1]\n   path = /home/bob/sub\n   valid users = alice carol\n\n[bob-share-2]\n   path = /home/bob\n   valid users = alice\n"

/-- A minimal config document that ends with a newline. -/
def exSmallContent : Str := strOf "[global]\n   workgroup = SAMBA\n"

/-- A document that mentions `[alice-share-Docs]` in a comment but has no
such section header. -/
def exCommentContent : Str := strOf "# see [alice-share-Docs]\n[global]\n"

/-- A create/update request payload used by several theorems. -/
def exShare : Share :=
  { name := strOf "Docs", owner := strOf "alice", sharedWith := [strOf "bob"] }

/-- A config document exercising both reserved sections, a comment, an
unknown key and a foreign section. -/
def exCfgContent : Str := strOf
  "# intro\n[Global]\n   Workgroup = OLD\n   unknown key = keep\n[homes]\n   browsable = no\n"

/-- A structured update request touching one key of each section. -/
def exCfgReq : UpdateSambaConfigRequest :=
  { globalCfg := some { workgroup := strOf "NEWGROUP" },
    homesCfg := some { browseable := strOf "yes" } }

/-! ## Claim theorems -/

/-- Claim C1, counterexample: on the well-formed config text
`"# c\n[global]\n"` (a comment line and a header line, each
newline-terminated), modifySharesInContent with empty delete and update
sets does not return the input exactly — the trailing newline is lost. -/
theorem claim1_roundTrip_cex :
    modifySharesInContent (strOf "/home") (strOf "# c\n[global]\n")
      noDel noUpd ≠ strOf "# c\n[global]\n" := by
  decide

/-- Claim C1, amended: with empty delete and update sets,
modifySharesInContent returns the input with one trailing newline removed
when the input ends in a newline, and returns the input exactly otherwise
(for carriage-return-free text). -/
theorem claim1_roundTrip_amended (homeDir content : Str)
    (hr : ('\r' : Char) ∉ content) :
    modifySharesInContent homeDir content noDel noUpd =
      if hasSuf ['\n'] content then content.dropLast else content := by
  rw [modifyShares_noMaps, joinNL_goLines content hr]

/-- Witness for the amended claim C1 at the concrete text
`"# c\n[global]\n"`. -/
theorem claim1_roundTrip_amended_witness :
    ('\r' : Char) ∉ strOf "# c\n[global]\n" ∧
    modifySharesInContent (strOf "/home") (strOf "# c\n[global]\n")
      noDel noUpd = strOf "# c\n[global]" := by
  refine ⟨by decide, ?_⟩
  rw [claim1_roundTrip_amended (strOf "/home") (strOf "# c\n[global]\n")
    (by decide)]
  decide

/-- Claim C2, evaluated at the failing input: on the spec's example
document (with `bob-share-1` stored under `/home/bob/sub`), DeleteUser's
plan deletes exactly `alice-share-1` and `bob-share-2` and updates
`bob-share-1` to `sharedWith = [carol]` as claimed — but the update
payload is rebuilt with a zero SubPath, so the rewritten section points at
`/home/bob` instead of `/home/bob/sub`: the updated record is not the same
record with `alice` removed. -/
theorem claim2_deleteUserPlan_eval :
    (parseSharesFromContent (strOf "/home") exDeleteContent).map
      (fun sh => (sh.id, sh.owner, sh.sharedWith, sh.subPath)) =
      [(strOf "alice-share-1", strOf "alice", [strOf "bob"], []),
       (strOf "bob-share-1", strOf "bob", [strOf "alice", strOf "carol"],
        strOf "sub"),
       (strOf "bob-share-2", strOf "bob", [strOf "alice"], [])] ∧
    (deleteUserPlan (strOf "alice")
      (parseSharesFromContent (strOf "/home") exDeleteContent)).toDelete =
      [strOf "alice-share-1", strOf "bob-share-2"] ∧
    (deleteUserPlan (strOf "alice")
      (parseSharesFromContent (strOf "/home") exDeleteContent)).toUpdate =
      [(strOf "bob-share-1",
        { owner := strOf "bob", sharedWith := [strOf "carol"] })] ∧
    deleteUserNewContent (strOf "/home") exDeleteContent (strOf "alice") =
      strOf "[global]\n   workgroup = WORKGROUP\n\n[bob-share-1]\n   path = /home/bob\n   browseable = yes\n   valid users = carol\n   force user = root\n   force group = root\n   read only = no\n   writable = yes" := by
  refine ⟨by decide, by decide, by decide, by decide⟩

/-- Claim C7, evaluated at the failing input: when every step succeeds
except the final enable-account step, CreateUser's compensation runs only
`userdel` — the created home directory is left behind (and the tdbsam
entry is not removed), contradicting the claimed remove-account-then-
remove-directory rollback; the surfaced error is the enable failure. -/
theorem claim7_enableRollback_eval :
    createUser (strOf "alice") { smbEnableOk := false } =
      ({ homeDirExists := true, unixUserExists := false,
         sambaUserExists := true, sambaEnabled := false },
       .error (strOf "failed to enable samba user")) := by
  decide

/-- Claim C8, evaluated at the failing input: the document ends with a
newline and contains no section `alice-share-docs`, yet DeleteShare does
not report not-found — it "succeeds" and rewrites the file with the
trailing newline stripped — and UpdateShare, which has no not-found branch
at all, also succeeds and writes the modified file. -/
theorem claim8_notFound_eval :
    sectionHeaderExists exSmallContent (strOf "alice-share-docs") = false ∧
    deleteShare (strOf "/home") exSmallContent (strOf "alice-share-docs") =
      .ok (strOf "[global]\n   workgroup = SAMBA") ∧
    (updateShare (strOf "/home") true exSmallContent
      (strOf "alice-share-docs")
      { owner := strOf "alice", sharedWith := [strOf "bob"] }) =
      ([Effect.statHomeDir (strOf "/home/alice"), Effect.readConfigFile,
        Effect.writeConfigFile (strOf "[global]\n   workgroup = SAMBA"),
        Effect.reloadSamba],
       .ok (strOf "[global]\n   workgroup = SAMBA")) := by
  refine ⟨by decide, by decide, by decide⟩

/-- Claim C9, evaluated at the failing input: DeleteUser performs no
username validation; with the invalid username `../../etc` it still
invokes smbpasswd and userdel on that string and removes
`filepath.Join("/home", "../../etc") = "/etc"`. -/
theorem claim9_deleteUserValidation_eval :
    isValidUsername (strOf "../../etc") = false ∧
    deleteUser (strOf "/home") (strOf "[global]\n") (strOf "../../etc")
      true =
      ([Effect.readConfigFile,
        Effect.runCmd (strOf "smbpasswd") [strOf "-x", strOf "../../etc"],
        Effect.runCmd (strOf "userdel")
          [strOf "--extrausers", strOf "../../etc"],
        Effect.removeAll (strOf "/etc"), Effect.reloadSamba],
       .ok ()) := by
  refine ⟨by decide, by decide⟩

/-- Claim C3, counterexample: `a..b` cleans to itself, which has no `..`
path segment, yet cleanSubPath rejects it with the traversal error —
because the source tests a raw `..` substring, not segments. -/
theorem claim3_traversal_cex :
    cleanSubPath (strOf "a..b") =
      .error (strOf "invalid subdirectory path: path traversal not allowed") ∧
    hasDotDotSegment
      (stripPre ['\\'] (stripPre ['/'] (goClean (strOf "a..b")))) = false := by
  refine ⟨by decide, by decide⟩

/-- Claim C3, amended: cleanSubPath cleans the path, strips a leading
separator, and rejects with the traversal error exactly when the result
contains `..` as a substring (not: as a path segment); an empty or `.`
result is mapped to the empty path, anything else is returned cleaned.
The concrete examples of the claim behave as stated. -/
theorem claim3_traversal_amended (s : Str) (hs : s ≠ []) :
    (cleanSubPath s =
        .error (strOf "invalid subdirectory path: path traversal not allowed")
      ↔ containsSub (stripPre ['\\'] (stripPre ['/'] (goClean s)))
          ['.', '.'] = true) ∧
    (containsSub (stripPre ['\\'] (stripPre ['/'] (goClean s)))
        ['.', '.'] = false →
      (stripPre ['\\'] (stripPre ['/'] (goClean s)) = [] ∨
       stripPre ['\\'] (stripPre ['/'] (goClean s)) = ['.'] →
        cleanSubPath s = .ok []) ∧
      (¬ (stripPre ['\\'] (stripPre ['/'] (goClean s)) = [] ∨
          stripPre ['\\'] (stripPre ['/'] (goClean s)) = ['.']) →
        cleanSubPath s =
          .ok (stripPre ['\\'] (stripPre ['/'] (goClean s))))) ∧
    cleanSubPath (strOf "../x") =
      .error (strOf "invalid subdirectory path: path traversal not allowed") ∧
    cleanSubPath (strOf "a/../../b") =
      .error (strOf "invalid subdirectory path: path traversal not allowed") ∧
    cleanSubPath [] = .ok [] ∧
    cleanSubPath (strOf "./") = .ok [] ∧
    cleanSubPath (strOf "a/./b") = .ok (strOf "a/b") := by
  refine ⟨?_, ?_, by decide, by decide, by decide, by decide, by decide⟩
  · unfold cleanSubPath
    rw [if_neg hs]
    by_cases hc : containsSub (stripPre ['\\'] (stripPre ['/'] (goClean s)))
        ['.', '.'] = true
    · rw [if_pos hc]
      simp [hc]
    · rw [if_neg hc]
      constructor
      · intro h
        split at h <;> cases h
      · intro h
        exact absurd h hc
  · intro hc
    constructor
    · intro hdot
      unfold cleanSubPath
      rw [if_neg hs, if_neg (by rw [hc]; simp), if_pos hdot]
    · intro hdot
      unfold cleanSubPath
      rw [if_neg hs, if_neg (by rw [hc]; simp), if_neg hdot]

/-- Witness for the amended claim C3 at the concrete subpath
`a/../../b`. -/
theorem claim3_traversal_amended_witness :
    strOf "a/../../b" ≠ [] ∧
    (cleanSubPath (strOf "a/../../b") =
        .error (strOf "invalid subdirectory path: path traversal not allowed")
      ↔ containsSub
          (stripPre ['\\'] (stripPre ['/'] (goClean (strOf "a/../../b"))))
          ['.', '.'] = true) := by
  refine ⟨by decide, ?_⟩
  exact (claim3_traversal_amended (strOf "a/../../b") (by decide)).1

/-- Claim C5: when the submitted raw content fails validation (and writes
succeed, as modelled), UpdateSambaConfigFile reports the validation
failure and the config file ends byte-identical to its pre-call content,
with the backup removed. -/
theorem claim5_rawReplace_revert (validateOk : Str → Bool) (fs : FileState)
    (newContent : Str) (h : validateOk newContent = false) :
    (updateSambaConfigFile validateOk fs newContent).2 =
      .error (strOf "configuration validation failed, reverted to original") ∧
    (updateSambaConfigFile validateOk fs newContent).1.configFile =
      fs.configFile ∧
    (updateSambaConfigFile validateOk fs newContent).1.backupFile = none := by
  unfold updateSambaConfigFile
  rw [if_pos (by simp [h])]
  exact ⟨rfl, rfl, rfl⟩

/-- Witness for claim C5: an always-failing validator on a concrete file
state. -/
theorem claim5_rawReplace_revert_witness :
    (fun _ : Str => false) (strOf "junk") = false ∧
    ((updateSambaConfigFile (fun _ => false)
        { configFile := strOf "[global]\n" } (strOf "junk")).2 =
      .error (strOf "configuration validation failed, reverted to original") ∧
    (updateSambaConfigFile (fun _ => false)
        { configFile := strOf "[global]\n" } (strOf "junk")).1.configFile =
      strOf "[global]\n" ∧
    (updateSambaConfigFile (fun _ => false)
        { configFile := strOf "[global]\n" } (strOf "junk")).1.backupFile =
      none) :=
  ⟨rfl, claim5_rawReplace_revert (fun _ => false)
    { configFile := strOf "[global]\n" } (strOf "junk") rfl⟩

/-- Claim C10, counterexample: a create request whose shared-with list is
empty but whose owner is also invalid returns the owner-validation error,
not the claimed 'must share with at least one user' error (the owner check
runs first). -/
theorem claim10_emptyShared_cex :
    (createShare (strOf "/home") true [] (strOf "20250101120000")
      { owner := strOf "bad owner!", sharedWith := [] }).2 ≠
      .error (strOf "must share with at least one user") ∧
    (createShare (strOf "/home") true [] (strOf "20250101120000")
      { owner := strOf "bad owner!", sharedWith := [] }).2 =
      .error (strOf "invalid owner username") := by
  refine ⟨by decide, by decide⟩

/-- Claim C10, amended: a create-share or update-share request with an
empty shared-with list always fails with a validation error before any
side effect (so in particular before the config file is read or written,
and no section with an empty `valid users` value is ever produced); the
error is the 'must share with at least one user' message whenever the
checks that precede it (owner and name format for create, id format for
update) pass. -/
theorem claim10_emptyShared_amended (homeDir content timestamp shareId : Str)
    (ohe : Bool) (share : Share) (h : share.sharedWith = []) :
    ((createShare homeDir ohe content timestamp share).1 = [] ∧
      ∃ e, (createShare homeDir ohe content timestamp share).2 = .error e) ∧
    (isValidUsername share.owner = true → isValidShareName share.name = true →
      (createShare homeDir ohe content timestamp share).2 =
        .error (strOf "must share with at least one user")) ∧
    ((updateShare homeDir ohe content shareId share).1 = [] ∧
      ∃ e, (updateShare homeDir ohe content shareId share).2 = .error e) ∧
    (sharePatternMatches shareId = true →
      (updateShare homeDir ohe content shareId share).2 =
        .error (strOf "must share with at least one user")) := by
  refine ⟨?_, ?_, ?_, ?_⟩
  · unfold createShare
    by_cases h1 : isValidUsername share.owner = true
    · rw [if_neg (not_not_intro h1)]
      by_cases h2 : isValidShareName share.name = true
      · rw [if_neg (not_not_intro h2), if_pos h]
        exact ⟨rfl, _, rfl⟩
      · rw [if_pos h2]
        exact ⟨rfl, _, rfl⟩
    · rw [if_pos h1]
      exact ⟨rfl, _, rfl⟩
  · intro h1 h2
    unfold createShare
    rw [if_neg (not_not_intro h1), if_neg (not_not_intro h2), if_pos h]
  · unfold updateShare
    by_cases h1 : sharePatternMatches shareId = true
    · rw [if_neg (not_not_intro h1), if_pos h]
      exact ⟨rfl, _, rfl⟩
    · rw [if_pos h1]
      exact ⟨rfl, _, rfl⟩
  · intro h1
    unfold updateShare
    rw [if_neg (not_not_intro h1), if_pos h]

/-- Witness for the amended claim C10: a valid owner with an empty
shared-with list, on a concrete document. -/
theorem claim10_emptyShared_amended_witness :
    ({ owner := strOf "alice", sharedWith := [] } : Share).sharedWith = [] ∧
    (isValidUsername (strOf "alice") = true →
      isValidShareName ([] : Str) = true →
      (createShare (strOf "/home") true (strOf "[global]\n")
        (strOf "20250101120000")
        { owner := strOf "alice", sharedWith := [] }).2 =
        .error (strOf "must share with at least one user")) :=
  ⟨rfl, (claim10_emptyShared_amended (strOf "/home") (strOf "[global]\n")
    (strOf "20250101120000") (strOf "alice-share-x") true
    { owner := strOf "alice", sharedWith := [] } rfl).2.1⟩

theorem hasPre_append_self (p t : Str) : hasPre p (p ++ t) = true :=
  (hasPre_iff p (p ++ t)).mpr ⟨t, rfl⟩

/-- A list that literally contains `pat` between two parts contains it as
a sublist. -/
theorem containsSub_of_parts (x pat y : Str) :
    containsSub (x ++ (pat ++ y)) pat = true := by
  unfold containsSub
  rw [List.any_eq_true]
  refine ⟨x.length, List.mem_range.mpr ?_, ?_⟩
  · simp only [List.length_append]
    omega
  · rw [List.drop_left]
    exact hasPre_append_self pat y

theorem buildShareTailLines_ne_nil (homeDir : Str) (share : Share) :
    buildShareTailLines homeDir share ≠ [] := by
  unfold buildShareTailLines
  simp

/-- Appending a generated share section makes the document contain the
bracketed share id. -/
theorem containsSub_append_build (content homeDir sid : Str) (share : Share) :
    containsSub (content ++ buildShareConfig homeDir sid share)
      (strOf "[" ++ sid ++ strOf "]") = true := by
  have h1 : content ++ buildShareConfig homeDir sid share =
      (content ++ ['\n']) ++ ((strOf "[" ++ sid ++ strOf "]") ++
        ('\n' :: (joinNL (buildShareTailLines homeDir share) ++ ['\n']))) := by
    unfold buildShareConfig buildShareConfigLines joinNL
    rw [joinChar_cons_ne _ _ _ (buildShareTailLines_ne_nil homeDir share)]
    simp [joinNL]
  rw [h1]
  exact containsSub_of_parts _ _ _

/-- Claim C4, counterexample: the document mentions `[alice-share-Docs]`
only inside a comment line — no section with that header exists — yet
CreateShare reports the naming conflict, because the source tests raw
substring containment on the whole document. -/
theorem claim4_naming_cex :
    sectionHeaderExists exCommentContent (strOf "alice-share-Docs") = false ∧
    (createShare (strOf "/home") true exCommentContent
      (strOf "20250101120000") exShare).2 =
      .error (strOf "share name 'Docs' already exists for this user") := by
  refine ⟨by decide, by decide⟩

/-- Claim C4, amended: with a non-empty valid custom name, CreateShare
succeeds with id `<owner>-share-<name>` precisely when the text `[<id>]`
does not occur as a substring of the document (a section header with that
id is one way, but not the only way, to make it occur); creating the same
name twice fails the second time because the appended section contains
that text; with an empty name the id is `<owner>-share-<timestamp>`. -/
theorem claim4_naming_amended (homeDir content timestamp : Str)
    (share : Share)
    (h1 : isValidUsername share.owner = true)
    (h2 : isValidShareName share.name = true)
    (h4 : share.sharedWith ≠ [])
    (h5 : ∀ u ∈ share.sharedWith, isValidUsername u = true)
    (h6 : share.subPath = []) :
    (share.name ≠ [] →
      containsSub content
        (strOf "[" ++ (share.owner ++ strOf "-share-" ++ share.name) ++
          strOf "]") = false →
      (createShare homeDir true content timestamp share).2 =
        .ok (share.owner ++ strOf "-share-" ++ share.name)) ∧
    (share.name ≠ [] →
      containsSub content
        (strOf "[" ++ (share.owner ++ strOf "-share-" ++ share.name) ++
          strOf "]") = true →
      (createShare homeDir true content timestamp share).2 =
        .error (strOf "share name '" ++ share.name ++
          strOf "' already exists for this user")) ∧
    (share.name ≠ [] →
      (createShare homeDir true
        (content ++ buildShareConfig homeDir
          (share.owner ++ strOf "-share-" ++ share.name) share)
        timestamp share).2 =
        .error (strOf "share name '" ++ share.name ++
          strOf "' already exists for this user")) ∧
    (share.name = [] →
      (createShare homeDir true content timestamp share).2 =
        .ok (share.owner ++ strOf "-share-" ++ timestamp)) := by
  have hfind : share.sharedWith.find? (fun u => !(isValidUsername u)) = none :=
    List.find?_eq_none.mpr fun u hu => by simp [h5 u hu]
  refine ⟨?_, ?_, ?_, ?_⟩
  · intro hn hc
    simp only [List.append_assoc] at hc
    simp [createShare, h1, h2, h4, hfind, h6, hn, hc]
  · intro hn hc
    simp only [List.append_assoc] at hc
    simp [createShare, h1, h2, h4, hfind, h6, hn, hc]
  · intro hn
    have hc := containsSub_append_build content homeDir
      (share.owner ++ strOf "-share-" ++ share.name) share
    simp only [List.append_assoc] at hc
    simp [createShare, h1, h2, h4, hfind, h6, hn, hc]
  · intro hn
    simp [createShare, h1, h2, h4, hfind, h6, hn, isValidShareName]

/-- Witness for the amended claim C4: creating `Docs` for `alice` on a
document without the id succeeds with id `alice-share-Docs`. -/
theorem claim4_naming_amended_witness :
    exShare.name ≠ [] ∧
    containsSub (strOf "[global]\n")
      (strOf "[" ++ (exShare.owner ++ strOf "-share-" ++ exShare.name) ++
        strOf "]") = false ∧
    (createShare (strOf "/home") true (strOf "[global]\n")
      (strOf "20250101120000") exShare).2 =
      .ok (exShare.owner ++ strOf "-share-" ++ exShare.name) := by
  refine ⟨by decide, by decide, ?_⟩
  exact (claim4_naming_amended (strOf "/home") (strOf "[global]\n")
    (strOf "20250101120000") exShare (by decide) (by decide) (by decide)
    (by decide) (by decide)).1 (by decide) (by decide)

theorem getGlobalValue_ne_nil (g : SambaGlobalConfig) (key v : Str)
    (h : getGlobalValue g key = some v) : v ≠ [] := by
  unfold getGlobalValue at h
  repeat' split at h
  all_goals simp_all

theorem getHomesValue_ne_nil (hm : SambaHomesConfig) (key v : Str)
    (h : getHomesValue hm key = some v) : v ≠ [] := by
  unfold getHomesValue at h
  repeat' split at h
  all_goals simp_all

theorem updKeyLine_snd (req : UpdateSambaConfigRequest) (sec k line : Str) :
    (updKeyLine req sec k line).2 = sec := by
  unfold updKeyLine
  split
  · rfl
  · split
    · rfl
    · rfl

theorem updKeyLine_other (req : UpdateSambaConfigRequest) (sec k line : Str)
    (hg : sec ≠ strOf "global") (hh : sec ≠ strOf "homes") :
    (updKeyLine req sec k line).1 = line := by
  unfold updKeyLine
  rw [if_neg hg, if_neg hh]

theorem updKeyLine_cases (req : UpdateSambaConfigRequest)
    (sec k line : Str) :
    (updKeyLine req sec k line).1 = line ∨
      ∃ v, v ≠ [] ∧
        ((sec = strOf "global" ∧ ∃ g, req.globalCfg = some g ∧
            getGlobalValue g (toLowerNoSpace (trimSpace k)) = some v) ∨
         (sec = strOf "homes" ∧ ∃ hm, req.homesCfg = some hm ∧
            getHomesValue hm (toLowerNoSpace (trimSpace k)) = some v)) ∧
        (updKeyLine req sec k line).1 =
          strOf "   " ++ trimSpace k ++ strOf " = " ++ v := by
  unfold updKeyLine
  cases hgv : (if sec = strOf "global" then
      req.globalCfg.bind fun g =>
        getGlobalValue g (toLowerNoSpace (trimSpace k))
    else none) with
  | some v =>
    right
    by_cases hsec : sec = strOf "global"
    · rw [if_pos hsec] at hgv
      obtain ⟨g, hg1, hg2⟩ := Option.bind_eq_some.mp hgv
      exact ⟨v, getGlobalValue_ne_nil g _ v hg2,
        Or.inl ⟨hsec, g, hg1, hg2⟩, rfl⟩
    · rw [if_neg hsec] at hgv
      cases hgv
  | none =>
    cases hhv : (if sec = strOf "homes" then
        req.homesCfg.bind fun hcfg =>
          getHomesValue hcfg (toLowerNoSpace (trimSpace k))
      else none) with
    | some v =>
      right
      by_cases hsec : sec = strOf "homes"
      · rw [if_pos hsec] at hhv
        obtain ⟨hm, hm1, hm2⟩ := Option.bind_eq_some.mp hhv
        exact ⟨v, getHomesValue_ne_nil hm _ v hm2,
          Or.inr ⟨hsec, hm, hm1, hm2⟩, rfl⟩
      · rw [if_neg hsec] at hhv
        cases hhv
    | none =>
      exact Or.inl rfl

theorem updLine_snd (req : UpdateSambaConfigRequest) (sec line : Str) :
    (updLine req sec line).2 = nextSection sec line := by
  unfold updLine nextSection
  by_cases hh : isHeaderLine (trimSpace line) = true
  · rw [if_pos hh, if_pos hh]
  · rw [if_neg hh, if_neg hh]
    split
    · rfl
    · cases hsp : splitEq1 (trimSpace line) with
      | none => rfl
      | some kr =>
        obtain ⟨k, rest⟩ := kr
        exact updKeyLine_snd req sec k line

theorem updLine_other (req : UpdateSambaConfigRequest) (sec line : Str)
    (hg : sec ≠ strOf "global") (hh : sec ≠ strOf "homes") :
    (updLine req sec line).1 = line := by
  unfold updLine
  by_cases h1 : isHeaderLine (trimSpace line) = true
  · rw [if_pos h1]
  · rw [if_neg h1]
    split
    · rfl
    · cases hsp : splitEq1 (trimSpace line) with
      | none => rfl
      | some kr =>
        obtain ⟨k, rest⟩ := kr
        exact updKeyLine_other req sec k line hg hh

theorem updLine_fst_cases (req : UpdateSambaConfigRequest) (sec line : Str) :
    (updLine req sec line).1 = line ∨
      rewrittenForm req sec line (updLine req sec line).1 := by
  unfold updLine
  by_cases hh : isHeaderLine (trimSpace line) = true
  · rw [if_pos hh]
    exact Or.inl rfl
  · rw [if_neg hh]
    split
    · exact Or.inl rfl
    · cases hsp : splitEq1 (trimSpace line) with
      | none =>
        exact Or.inl rfl
      | some kr =>
        obtain ⟨k, rest⟩ := kr
        rcases updKeyLine_cases req sec k line with h | ⟨v, hv, hdisj, heq⟩
        · exact Or.inl h
        · exact Or.inr ⟨k, rest, v, hsp, hv, hdisj, heq⟩

theorem updateConfigLines_cons (req : UpdateSambaConfigRequest) (sec l : Str)
    (ls : List Str) :
    updateConfigLines req sec (l :: ls) =
      (updLine req sec l).1 :: updateConfigLines req (updLine req sec l).2 ls :=
  rfl

theorem sectionAtFrom_succ_cons (sec l : Str) (ls : List Str) (i : Nat) :
    sectionAtFrom sec (l :: ls) (i + 1) =
      sectionAtFrom (nextSection sec l) ls i := rfl

/-- Line-by-line frame property of the UpdateSambaConfig loop: the output
has exactly the input's lines; a line whose section is neither `global`
nor `homes` is emitted unchanged; and every line is either unchanged or a
rewritten key line carrying a non-empty requested value for its own key. -/
theorem updateConfigLines_frame (req : UpdateSambaConfigRequest)
    (ls : List Str) : ∀ (sec : Str) (i : Nat),
    (updateConfigLines req sec ls).length = ls.length ∧
    ((sectionAtFrom sec ls i ≠ strOf "global" ∧
      sectionAtFrom sec ls i ≠ strOf "homes") →
      (updateConfigLines req sec ls).getD i [] = ls.getD i []) ∧
    ((updateConfigLines req sec ls).getD i [] = ls.getD i [] ∨
      rewrittenForm req (sectionAtFrom sec ls i) (ls.getD i [])
        ((updateConfigLines req sec ls).getD i [])) := by
  induction ls with
  | nil =>
    intro sec i
    exact ⟨rfl, fun _ => rfl, Or.inl rfl⟩
  | cons l ls ih =>
    intro sec i
    rw [updateConfigLines_cons, updLine_snd]
    cases i with
    | zero =>
      refine ⟨?_, ?_, ?_⟩
      · simp [(ih (nextSection sec l) 0).1]
      · intro hcond
        simp only [List.getD_cons_zero]
        exact updLine_other req sec l hcond.1 hcond.2
      · simp only [List.getD_cons_zero]
        exact updLine_fst_cases req sec l
    | succ i =>
      refine ⟨?_, ?_, ?_⟩
      · simp [(ih (nextSection sec l) i).1]
      · intro hcond
        rw [sectionAtFrom_succ_cons] at hcond
        simp only [List.getD_cons_succ]
        exact (ih (nextSection sec l) i).2.1 hcond
      · simp only [List.getD_cons_succ]
        rw [sectionAtFrom_succ_cons]
        exact (ih (nextSection sec l) i).2.2

/-- Claim C6: in a structured global/homes update, the rewritten file has
exactly the input's lines in order (nothing inserted or deleted); every
line outside the `global` and `homes` sections — including comments,
blank lines and foreign sections — is emitted unchanged; and every line
is either emitted unchanged or is a key line of the current reserved
section rewritten in place to the request's non-empty value for that very
key. -/
theorem claim6_structuredUpdate (req : UpdateSambaConfigRequest)
    (content : Str) (i : Nat) (_hi : i < (goLines content).length) :
    updateSambaConfig req content =
      joinNL (updateConfigLines req [] (goLines content)) ++ ['\n'] ∧
    (updateConfigLines req [] (goLines content)).length =
      (goLines content).length ∧
    ((sectionAtFrom [] (goLines content) i ≠ strOf "global" ∧
      sectionAtFrom [] (goLines content) i ≠ strOf "homes") →
      (updateConfigLines req [] (goLines content)).getD i [] =
        (goLines content).getD i []) ∧
    ((updateConfigLines req [] (goLines content)).getD i [] =
        (goLines content).getD i [] ∨
      rewrittenForm req (sectionAtFrom [] (goLines content) i)
        ((goLines content).getD i [])
        ((updateConfigLines req [] (goLines content)).getD i [])) :=
  ⟨rfl, updateConfigLines_frame req (goLines content) [] i⟩

/-- Witness for claim C6 at a concrete request and document (line 2 is the
`Workgroup` key of the `[Global]` section). -/
theorem claim6_structuredUpdate_witness :
    2 < (goLines exCfgContent).length ∧
    ((updateConfigLines exCfgReq [] (goLines exCfgContent)).length =
      (goLines exCfgContent).length ∧
    ((sectionAtFrom [] (goLines exCfgContent) 2 ≠ strOf "global" ∧
      sectionAtFrom [] (goLines exCfgContent) 2 ≠ strOf "homes") →
      (updateConfigLines exCfgReq [] (goLines exCfgContent)).getD 2 [] =
        (goLines exCfgContent).getD 2 []) ∧
    ((updateConfigLines exCfgReq [] (goLines exCfgContent)).getD 2 [] =
        (goLines exCfgContent).getD 2 [] ∨
      rewrittenForm exCfgReq (sectionAtFrom [] (goLines exCfgContent) 2)
        ((goLines exCfgContent).getD 2 [])
        ((updateConfigLines exCfgReq [] (goLines exCfgContent)).getD 2 []))) :=
  ⟨by decide, ((claim6_structuredUpdate exCfgReq exCfgContent 2
    (by decide)).2 : _)⟩

end SambaMgr
